import Mathlib

set_option maxHeartbeats 1000000

/-!
Shallow embedding of the concurrent benchmark harness in
`src/sagemaker/01_multi_adapter_hosting_sagemaker_lorax/multi_adapter_hosting_sagemaker.ipynb`
(the cell defining `invoke_adapter` and `benchmark_scenario`).

The Python code keeps three globals: `total_requests : int` (the remaining
request budget, used in single-adapter mode), `adapter_counters : list[int]`
(per-adapter remaining counts, used in multi-adapter mode, initialised to
`[total_requests // num_adapters] * num_adapters`), and `counters_lock`, a
mutex.  `num_threads` worker threads each run `invoke_adapter`: loop, take the
lock, claim one unit of work (decrement the relevant counter; `break` when
exhausted), release the lock, issue one blocking network request
(`lorax_predictor.predict`), time it, and append the elapsed time to a
thread-local `latencies` list; on normal loop exit the local list is flushed
into the thread's `thread_latencies` via `aggregate_latency.extend(latencies)`.
`benchmark_scenario` starts the threads, joins them, and computes
`total_latency`, `total_requests_made`, `average_latency` and `throughput`.

The embedding is a small-step interleaving semantics.  A worker is at one of
five control points: `ready` (about to take the lock), `claiming` (holding the
lock, about to run the claim-and-decrement block), `requesting a` (lock
released, blocking `predict` call for adapter `a` in flight), `done` (loop
exited normally and local latencies flushed), `crashed` (the `predict` call
raised; the exception propagates out of `invoke_adapter`, killing the thread
before the flush, so its local measurements are never published).  An `Ev`
event schedules one worker for one atomic micro-step and carries the
environment's nondeterminism: the `random.choice` pick and the outcome of the
network call (a returned response carrying a latency and an ignored
success flag, or a raised exception).  Python integers are `Int`; wall-clock
durations are `ℚ`.
-/

/-- Shared mutable globals of the benchmark cell: the global remaining budget
`total_requests` and the per-adapter remaining counts `adapter_counters`. -/
structure PoolSt where
  total_requests : Int
  adapter_counters : List Int
deriving DecidableEq, Repr

/-- Control point of one worker thread inside `invoke_adapter`. -/
inductive Phase where
  | ready : Phase
  | claiming : Phase
  | requesting : Nat → Phase
  | done : Phase
  | crashed : Phase
deriving DecidableEq, Repr

/-- One worker thread: its control point and its thread-local `latencies`
list (appended to after every returned request). -/
structure WState where
  phase : Phase
  lats : List ℚ
deriving DecidableEq, Repr

/-- Whole-system state: the shared globals, the mutex (`none` = free,
`some w` = held by worker `w`), and the workers. -/
structure Sys where
  pool : PoolSt
  lock : Option Nat
  workers : List WState
deriving DecidableEq, Repr

/-- One scheduling event: which worker moves, the index drawn by
`random.choice`, and the outcome of a network call (`none` = `predict`
raised; `some (l, ok)` = `predict` returned after `l` seconds with
success flag `ok`, which the Python code never inspects). -/
structure Ev where
  w : Nat
  choice : Nat
  outcome : Option (ℚ × Bool)
deriving DecidableEq, Repr

/-- Embedding of `[i for i, count in enumerate(adapter_counters) if count > 0]`. -/
def remaining_adapters (counters : List Int) : List Nat :=
  (List.range counters.length).filter (fun i => decide (0 < counters.getD i 0))

/-- Embedding of the body of the `with counters_lock:` block of
`invoke_adapter`: in single-adapter mode decrement `total_requests` if
positive, else signal `break`; in multi-adapter mode pick
`random.choice(remaining_adapters)` (the choice index is supplied by the
event), decrement that adapter's counter, and return its 1-based id; signal
`break` when no adapter has remaining work.  `none` models the `break`. -/
def claim_next (single_adapter : Bool) (choice : Nat) (p : PoolSt) :
    Option (Nat × PoolSt) :=
  if single_adapter then
    if 0 < p.total_requests then
      some (1, { p with total_requests := p.total_requests - 1 })
    else
      none
  else
    let rem := remaining_adapters p.adapter_counters
    if h : rem.length = 0 then
      none
    else
      let i := rem.get ⟨choice % rem.length, Nat.mod_lt choice (Nat.pos_of_ne_zero h)⟩
      some (i + 1,
        { p with adapter_counters :=
            p.adapter_counters.set i (p.adapter_counters.getD i 0 - 1) })

/-- Micro-step of worker `e.w` (already looked up as `ws`); see `wstep`. -/
def app_ev (single_adapter : Bool) (s : Sys) (e : Ev) (ws : WState) : Sys :=
  match ws.phase with
  | Phase.ready =>
      if s.lock = none then
        { s with lock := some e.w,
                 workers := s.workers.set e.w ({ ws with phase := Phase.claiming }) }
      else s
  | Phase.claiming =>
      if s.lock = some e.w then
        match claim_next single_adapter e.choice s.pool with
        | none =>
            { s with lock := none,
                     workers := s.workers.set e.w ({ ws with phase := Phase.done }) }
        | some (aid, p) =>
            { pool := p, lock := none,
              workers := s.workers.set e.w ({ ws with phase := Phase.requesting aid }) }
      else s
  | Phase.requesting _ =>
      match e.outcome with
      | some (l, _) =>
          { s with workers :=
              s.workers.set e.w ({ ws with phase := Phase.ready, lats := ws.lats ++ [l] }) }
      | none =>
          { s with workers := s.workers.set e.w ({ ws with phase := Phase.crashed }) }
  | Phase.done => s
  | Phase.crashed => s

/-- One interleaving step: deliver event `e`.  An event naming a worker that
cannot move (nonexistent, finished, crashed, or waiting on a lock held by
another worker) is a stutter. -/
def wstep (single_adapter : Bool) (s : Sys) (e : Ev) : Sys :=
  match s.workers[e.w]? with
  | none => s
  | some ws => app_ev single_adapter s e ws

/-- Run a whole schedule of events. -/
def run_events (single_adapter : Bool) (s : Sys) : List Ev → Sys
  | [] => s
  | e :: evs => run_events single_adapter (wstep single_adapter s e) evs

/-- Initial state for one benchmark run with budget `total_requests`,
`num_adapters` adapters and `num_threads` worker threads:
`adapter_counters = [total_requests // num_adapters] * num_adapters`,
lock free, every worker at the top of its loop with an empty latency list. -/
def init_sys (total_requests num_adapters num_threads : Nat) : Sys :=
  { pool := { total_requests := (total_requests : Int),
              adapter_counters :=
                List.replicate num_adapters ((total_requests / num_adapters : Nat) : Int) },
    lock := none,
    workers := List.replicate num_threads { phase := Phase.ready, lats := [] } }

/-- Latencies of one worker as seen by `benchmark_scenario`'s `all_latencies`:
`thread_latencies` is filled by `aggregate_latency.extend(latencies)` only when
the loop exits normally, so a crashed or still-running worker contributes
nothing. -/
def recorded (ws : WState) : List ℚ :=
  if ws.phase = Phase.done then ws.lats else []

/-- Embedding of `all_latencies` at join time. -/
def all_latencies (s : Sys) : List (List ℚ) :=
  s.workers.map recorded

/-- Embedding of `total_latency = sum([sum(latencies) for latencies in all_latencies])`. -/
def total_latency (s : Sys) : ℚ :=
  ((all_latencies s).map (fun l => l.sum)).sum

/-- Embedding of `total_requests_made = sum([len(latencies) for latencies in all_latencies])`. -/
def total_requests_made (s : Sys) : Nat :=
  ((all_latencies s).map List.length).sum

/-- Derived metrics printed by `benchmark_scenario`. -/
structure BenchmarkResult where
  average_latency : ℚ
  throughput : ℚ
deriving DecidableEq, Repr

/-- Embedding of the aggregation tail of `benchmark_scenario`:
`average_latency = total_latency / total_requests_made` raises
`ZeroDivisionError` when no request was recorded, and
`throughput = total_requests_made / elapsed` raises it when the measured
wall-clock span is zero. -/
def aggregate (s : Sys) (elapsed : ℚ) : Except String BenchmarkResult :=
  if total_requests_made s = 0 then
    Except.error "ZeroDivisionError"
  else if elapsed = 0 then
    Except.error "ZeroDivisionError"
  else
    Except.ok { average_latency := total_latency s / (total_requests_made s : ℚ),
                throughput := (total_requests_made s : ℚ) / elapsed }

/-- End-to-end embedding of one `benchmark_scenario(single_adapter)` call on a
fresh configuration: initialise the globals, start the workers, run an
arbitrary interleaving to completion of the join, then aggregate.  The
function performs no configuration validation, exactly like the source. -/
def benchmark_scenario (single_adapter : Bool)
    (total_requests num_adapters num_threads : Nat)
    (evs : List Ev) (elapsed : ℚ) : Except String BenchmarkResult :=
  aggregate (run_events single_adapter (init_sys total_requests num_adapters num_threads) evs) elapsed

/-- Indicator: event `e` drives the claim-and-decrement block of a
lock-holding worker and the pool still has work, i.e. one `claim_next` call
succeeds at this step. -/
def claim_ind (single_adapter : Bool) (s : Sys) (e : Ev) : Nat :=
  match s.workers[e.w]? with
  | some ws =>
      if ws.phase = Phase.claiming ∧ s.lock = some e.w then
        (if (claim_next single_adapter e.choice s.pool).isSome then 1 else 0)
      else 0
  | none => 0

/-- Indicator: this step successfully claims the adapter with 0-based index
`i` (`claim_next` hands out 1-based ids). -/
def claim_ind_target (single_adapter : Bool) (i : Nat) (s : Sys) (e : Ev) : Nat :=
  match s.workers[e.w]? with
  | some ws =>
      if ws.phase = Phase.claiming ∧ s.lock = some e.w then
        (match claim_next single_adapter e.choice s.pool with
         | some (aid, _) => if aid = i + 1 then 1 else 0
         | none => 0)
      else 0
  | none => 0

/-- Number of successful `claim_next` calls (claims actually taken from the
pool) along a schedule. -/
def claims_made (single_adapter : Bool) (s : Sys) : List Ev → Nat
  | [] => 0
  | e :: evs =>
      claim_ind single_adapter s e + claims_made single_adapter (wstep single_adapter s e) evs

/-- Number of successful claims of the adapter with 0-based index `i`
along a schedule. -/
def claims_of_target (single_adapter : Bool) (i : Nat) (s : Sys) : List Ev → Nat
  | [] => 0
  | e :: evs =>
      claim_ind_target single_adapter i s e +
        claims_of_target single_adapter i (wstep single_adapter s e) evs

/-- Number of non-stuttering (state-changing) steps along a schedule. -/
def prod_count (single_adapter : Bool) (s : Sys) : List Ev → Nat
  | [] => 0
  | e :: evs =>
      (if wstep single_adapter s e = s then 0 else 1) +
        prod_count single_adapter (wstep single_adapter s e) evs

/-- Sum of the remaining counts the current mode draws from. -/
def poolZ (single_adapter : Bool) (p : PoolSt) : Int :=
  if single_adapter then p.total_requests else p.adapter_counters.sum

/-- The remaining counts the current mode draws from, as a list. -/
def pool_counts (single_adapter : Bool) (p : PoolSt) : List Int :=
  if single_adapter then [p.total_requests] else p.adapter_counters

/-- The pool is exhausted: every claim attempt takes the `break` branch. -/
def exhausted (single_adapter : Bool) (p : PoolSt) : Prop :=
  ∀ c, claim_next single_adapter c p = none

/-- Every worker thread has exited its loop normally. -/
def all_done (s : Sys) : Prop :=
  ∀ ws ∈ s.workers, ws.phase = Phase.done

/-- Every worker thread has terminated (normally or by a raised exception),
i.e. the join barrier in `benchmark_scenario` has passed. -/
def all_stopped (s : Sys) : Prop :=
  ∀ ws ∈ s.workers, ws.phase = Phase.done ∨ ws.phase = Phase.crashed

instance (s : Sys) : Decidable (all_done s) := by
  unfold all_done
  infer_instance

instance (s : Sys) : Decidable (all_stopped s) := by
  unfold all_stopped
  infer_instance

/-- Worker is inside the blocking network call. -/
def is_requesting : Phase → Bool
  | Phase.ready => false
  | Phase.claiming => false
  | Phase.requesting _ => true
  | Phase.done => false
  | Phase.crashed => false

/-- Length of a worker's thread-local latency list, as an integer. -/
def latI (ws : WState) : Int := (ws.lats.length : Int)

/-- Indicator: worker has a network request in flight. -/
def reqI (ws : WState) : Int := if is_requesting ws.phase then 1 else 0

/-- Indicator: worker's thread died to a raised exception. -/
def crashI (ws : WState) : Int := if ws.phase = Phase.crashed then 1 else 0

/-- Sum of a statistic over all workers. -/
def wsum (f : WState → Int) (s : Sys) : Int := (s.workers.map f).sum

/-- No remaining count is negative. -/
def InvNonneg (p : PoolSt) : Prop :=
  0 ≤ p.total_requests ∧ ∀ c ∈ p.adapter_counters, 0 ≤ c

/-- The mutex is held exactly by the workers sitting inside the
`with counters_lock:` block. -/
def InvLock (s : Sys) : Prop :=
  (∀ w, s.lock = some w → ∃ ws, s.workers[w]? = some ws ∧ ws.phase = Phase.claiming) ∧
  (∀ w ws, s.workers[w]? = some ws → ws.phase = Phase.claiming → s.lock = some w)

/-- Conservation of work units: the initial pool content `base` splits into
what is still in the pool, what has been timed and appended locally, what is
in flight, and the one in-flight unit each crashed worker lost. -/
def InvCount (single_adapter : Bool) (base : Int) (s : Sys) : Prop :=
  base = poolZ single_adapter s.pool + wsum latI s + wsum reqI s + wsum crashI s

/-- A worker only exits its loop normally after seeing the pool exhausted. -/
def InvDone (single_adapter : Bool) (s : Sys) : Prop :=
  (∃ ws ∈ s.workers, ws.phase = Phase.done) → exhausted single_adapter s.pool

/-- Integer length of a worker's published (`extend`-ed) latency list. -/
def recI (ws : WState) : Int := ((recorded ws).length : Int)

/-- Termination weight of a control point. -/
def phase_weight : Phase → Nat
  | Phase.ready => 2
  | Phase.claiming => 1
  | Phase.requesting _ => 4
  | Phase.done => 0
  | Phase.crashed => 0

/-- Integer termination weight of a worker. -/
def weightI (ws : WState) : Int := (phase_weight ws.phase : Int)

/-- Variant for termination: pool content plus worker weights, strictly
decreasing on every non-stuttering step. -/
def measure_V (single : Bool) (s : Sys) : Int :=
  4 * poolZ single s.pool + wsum weightI s

example : claim_next true 0 { total_requests := 2, adapter_counters := [] } =
    some (1, { total_requests := 1, adapter_counters := [] }) := by decide

example : claim_next false 0 { total_requests := 0, adapter_counters := [2, 0, 1] } =
    some (1, { total_requests := 0, adapter_counters := [1, 0, 1] }) := by decide

example : claim_next false 1 { total_requests := 0, adapter_counters := [2, 0, 1] } =
    some (3, { total_requests := 0, adapter_counters := [2, 0, 0] }) := by decide

example : remaining_adapters [2, 0, 1] = [0, 2] := by decide

theorem int_sum_set (l : List Int) (i : Nat) (x : Int) (h : i < l.length) :
    (l.set i x).sum = l.sum - l.getD i 0 + x := by
  induction l generalizing i with
  | nil => simp at h
  | cons a l ih =>
    cases i with
    | zero => simp [List.set]; ring
    | succ n =>
      have hn : n < l.length := by simpa using h
      simp only [List.set, List.sum_cons, List.getD_cons_succ, ih n hn]
      ring

theorem int_sum_map_set {α : Type} (f : α → Int) (l : List α) (i : Nat) (ws ws' : α)
    (h : l[i]? = some ws) :
    ((l.set i ws').map f).sum = (l.map f).sum - f ws + f ws' := by
  obtain ⟨hi, hget⟩ := List.getElem?_eq_some.mp h
  rw [List.map_set, int_sum_set (l.map f) i (f ws') (by simpa using hi)]
  have hD : (l.map f).getD i 0 = f ws := by
    rw [List.getD_eq_getElem?_getD, List.getElem?_map, h]
    rfl
  rw [hD]

theorem mem_remaining_iff (cs : List Int) (i : Nat) :
    i ∈ remaining_adapters cs ↔ i < cs.length ∧ 0 < cs.getD i 0 := by
  simp [remaining_adapters, List.mem_filter, List.mem_range]

theorem remaining_nil_iff (cs : List Int) :
    remaining_adapters cs = [] ↔ ∀ c ∈ cs, c ≤ 0 := by
  simp only [remaining_adapters, List.filter_eq_nil_iff, List.mem_range,
    decide_eq_true_eq, not_lt]
  constructor
  · intro h c hc
    obtain ⟨n, hn⟩ := List.mem_iff_getElem?.mp hc
    have hlt : n < cs.length := (List.getElem?_eq_some.mp hn).1
    have := h n hlt
    rwa [List.getD_eq_getElem?_getD, hn, Option.getD_some] at this
  · intro h i hi
    have hg : cs.getD i 0 = cs[i] := by
      rw [List.getD_eq_getElem?_getD, List.getElem?_eq_getElem hi, Option.getD_some]
    rw [hg]
    exact h _ (List.getElem_mem hi)

theorem claim_next_single_none_iff (c : Nat) (p : PoolSt) :
    claim_next true c p = none ↔ p.total_requests ≤ 0 := by
  simp only [claim_next, if_true]
  split <;> simp <;> omega

theorem claim_next_multi_none_iff (c : Nat) (p : PoolSt) :
    claim_next false c p = none ↔ remaining_adapters p.adapter_counters = [] := by
  by_cases hlen : (remaining_adapters p.adapter_counters).length = 0
  · simp [claim_next, hlen, List.length_eq_zero.mp hlen]
  · simp [claim_next, hlen]
    intro hnil
    exact hlen (by rw [hnil]; rfl)

theorem claim_next_single_some (c : Nat) (p p' : PoolSt) (a : Nat)
    (h : claim_next true c p = some (a, p')) :
    a = 1 ∧ 0 < p.total_requests ∧
      p' = { p with total_requests := p.total_requests - 1 } := by
  by_cases hpos : 0 < p.total_requests
  · simp only [claim_next, if_true, if_pos hpos, Option.some_inj, Prod.mk.injEq] at h
    exact ⟨h.1.symm, hpos, h.2.symm⟩
  · simp [claim_next, hpos] at h

theorem claim_next_multi_some (c : Nat) (p p' : PoolSt) (a : Nat)
    (h : claim_next false c p = some (a, p')) :
    ∃ i, i ∈ remaining_adapters p.adapter_counters ∧ a = i + 1 ∧
      p' = { p with adapter_counters :=
        p.adapter_counters.set i (p.adapter_counters.getD i 0 - 1) } := by
  by_cases hlen : (remaining_adapters p.adapter_counters).length = 0
  · simp [claim_next, hlen] at h
  · simp only [claim_next, Bool.false_eq_true, if_false, dif_neg hlen,
      Option.some_inj, Prod.mk.injEq] at h
    refine ⟨(remaining_adapters p.adapter_counters).get
      ⟨c % _, Nat.mod_lt c (Nat.pos_of_ne_zero hlen)⟩, List.get_mem _ _ _, h.1.symm, h.2.symm⟩

theorem app_ev_ready (single : Bool) (s : Sys) (e : Ev) (ws : WState)
    (h : ws.phase = Phase.ready) :
    app_ev single s e ws =
      if s.lock = none then
        { s with lock := some e.w,
                 workers := s.workers.set e.w ({ ws with phase := Phase.claiming }) }
      else s := by
  unfold app_ev; rw [h]

theorem app_ev_claiming (single : Bool) (s : Sys) (e : Ev) (ws : WState)
    (h : ws.phase = Phase.claiming) :
    app_ev single s e ws =
      if s.lock = some e.w then
        match claim_next single e.choice s.pool with
        | none =>
            { s with lock := none,
                     workers := s.workers.set e.w ({ ws with phase := Phase.done }) }
        | some (aid, p) =>
            { pool := p, lock := none,
              workers := s.workers.set e.w ({ ws with phase := Phase.requesting aid }) }
      else s := by
  unfold app_ev; rw [h]

theorem app_ev_requesting (single : Bool) (s : Sys) (e : Ev) (ws : WState) (a : Nat)
    (h : ws.phase = Phase.requesting a) :
    app_ev single s e ws =
      match e.outcome with
      | some (l, _) =>
          { s with workers :=
              s.workers.set e.w ({ ws with phase := Phase.ready, lats := ws.lats ++ [l] }) }
      | none =>
          { s with workers := s.workers.set e.w ({ ws with phase := Phase.crashed }) } := by
  unfold app_ev; rw [h]

theorem app_ev_done (single : Bool) (s : Sys) (e : Ev) (ws : WState)
    (h : ws.phase = Phase.done) : app_ev single s e ws = s := by
  unfold app_ev; rw [h]

theorem app_ev_crashed (single : Bool) (s : Sys) (e : Ev) (ws : WState)
    (h : ws.phase = Phase.crashed) : app_ev single s e ws = s := by
  unfold app_ev; rw [h]

theorem wstep_of_get (single : Bool) (s : Sys) (e : Ev) (ws : WState)
    (h : s.workers[e.w]? = some ws) : wstep single s e = app_ev single s e ws := by
  unfold wstep; rw [h]

theorem wstep_of_get_none (single : Bool) (s : Sys) (e : Ev)
    (h : s.workers[e.w]? = none) : wstep single s e = s := by
  unfold wstep; rw [h]

/-- Exhaustive inversion of one interleaving step: either a stutter, or one of
the five transitions of `invoke_adapter` (lock acquisition; claim hitting the
`break`; successful claim-and-decrement; returned request being timed and
appended; raised request crashing the worker). -/
theorem wstep_cases (single : Bool) (s : Sys) (e : Ev) :
    wstep single s e = s ∨
    (∃ ws, s.workers[e.w]? = some ws ∧ ws.phase = Phase.ready ∧ s.lock = none ∧
      wstep single s e = { s with lock := some e.w, workers := s.workers.set e.w ({ ws with phase := Phase.claiming }) }) ∨
    (∃ ws, s.workers[e.w]? = some ws ∧ ws.phase = Phase.claiming ∧ s.lock = some e.w ∧
      claim_next single e.choice s.pool = none ∧
      wstep single s e = { s with lock := none, workers := s.workers.set e.w ({ ws with phase := Phase.done }) }) ∨
    (∃ ws a p, s.workers[e.w]? = some ws ∧ ws.phase = Phase.claiming ∧ s.lock = some e.w ∧
      claim_next single e.choice s.pool = some (a, p) ∧
      wstep single s e = { pool := p, lock := none, workers := s.workers.set e.w ({ ws with phase := Phase.requesting a }) }) ∨
    (∃ ws a l f, s.workers[e.w]? = some ws ∧ ws.phase = Phase.requesting a ∧
      e.outcome = some (l, f) ∧
      wstep single s e = { s with workers := s.workers.set e.w ({ ws with phase := Phase.ready, lats := ws.lats ++ [l] }) }) ∨
    (∃ ws a, s.workers[e.w]? = some ws ∧ ws.phase = Phase.requesting a ∧ e.outcome = none ∧
      wstep single s e = { s with workers := s.workers.set e.w ({ ws with phase := Phase.crashed }) }) := by
  cases hget : s.workers[e.w]? with
  | none => exact Or.inl (wstep_of_get_none single s e hget)
  | some ws =>
    have hw := wstep_of_get single s e ws hget
    cases hph : ws.phase with
    | ready =>
      by_cases hl : s.lock = none
      · exact Or.inr (Or.inl ⟨ws, rfl, hph, hl, by
          rw [hw, app_ev_ready single s e ws hph, if_pos hl]⟩)
      · exact Or.inl (by rw [hw, app_ev_ready single s e ws hph, if_neg hl])
    | claiming =>
      by_cases hl : s.lock = some e.w
      · cases hc : claim_next single e.choice s.pool with
        | none =>
          refine Or.inr (Or.inr (Or.inl ⟨ws, rfl, hph, hl, rfl, ?_⟩))
          rw [hw, app_ev_claiming single s e ws hph, if_pos hl, hc]
        | some ap =>
          obtain ⟨a, p⟩ := ap
          refine Or.inr (Or.inr (Or.inr (Or.inl ⟨ws, a, p, rfl, hph, hl, rfl, ?_⟩)))
          rw [hw, app_ev_claiming single s e ws hph, if_pos hl, hc]
      · exact Or.inl (by rw [hw, app_ev_claiming single s e ws hph, if_neg hl])
    | requesting a =>
      cases ho : e.outcome with
      | none =>
        refine Or.inr (Or.inr (Or.inr (Or.inr (Or.inr ⟨ws, a, rfl, hph, rfl, ?_⟩))))
        rw [hw, app_ev_requesting single s e ws a hph, ho]
      | some lf =>
        obtain ⟨l, f⟩ := lf
        refine Or.inr (Or.inr (Or.inr (Or.inr (Or.inl ⟨ws, a, l, f, rfl, hph, rfl, ?_⟩))))
        rw [hw, app_ev_requesting single s e ws a hph, ho]
    | done => exact Or.inl (by rw [hw, app_ev_done single s e ws hph])
    | crashed => exact Or.inl (by rw [hw, app_ev_crashed single s e ws hph])

theorem claim_next_none_all (single : Bool) (c c' : Nat) (p : PoolSt)
    (h : claim_next single c p = none) : claim_next single c' p = none := by
  cases single
  · rw [claim_next_multi_none_iff] at h ⊢; exact h
  · rw [claim_next_single_none_iff] at h ⊢; exact h

theorem exhausted_of_claim_none (single : Bool) (c : Nat) (p : PoolSt)
    (h : claim_next single c p = none) : exhausted single p :=
  fun c' => claim_next_none_all single c c' p h

theorem claim_next_poolZ (single : Bool) (c : Nat) (p p' : PoolSt) (a : Nat)
    (h : claim_next single c p = some (a, p')) :
    poolZ single p' = poolZ single p - 1 := by
  cases single
  · obtain ⟨i, hi, _, hp⟩ := claim_next_multi_some c p p' a h
    obtain ⟨hlt, _⟩ := (mem_remaining_iff _ _).mp hi
    subst hp
    simp only [poolZ, Bool.false_eq_true, if_false]
    rw [int_sum_set _ i _ hlt]
    ring
  · obtain ⟨_, hpos, hp⟩ := claim_next_single_some c p p' a h
    subst hp
    simp [poolZ]

theorem claim_next_nonneg (single : Bool) (c : Nat) (p p' : PoolSt) (a : Nat)
    (h : claim_next single c p = some (a, p')) (hn : InvNonneg p) : InvNonneg p' := by
  cases single
  · obtain ⟨i, hi, _, hp⟩ := claim_next_multi_some c p p' a h
    obtain ⟨hlt, hpos⟩ := (mem_remaining_iff _ _).mp hi
    subst hp
    refine ⟨hn.1, fun x hx => ?_⟩
    rcases List.mem_or_eq_of_mem_set hx with hx' | hx'
    · exact hn.2 x hx'
    · subst hx'; omega
  · obtain ⟨_, hpos, hp⟩ := claim_next_single_some c p p' a h
    subst hp
    exact ⟨by simp; omega, hn.2⟩

theorem claim_next_single_counters (c : Nat) (p p' : PoolSt) (a : Nat)
    (h : claim_next true c p = some (a, p')) :
    p'.adapter_counters = p.adapter_counters := by
  obtain ⟨_, _, hp⟩ := claim_next_single_some c p p' a h
  subst hp; rfl

theorem claim_next_multi_total (c : Nat) (p p' : PoolSt) (a : Nat)
    (h : claim_next false c p = some (a, p')) :
    p'.total_requests = p.total_requests := by
  obtain ⟨i, _, _, hp⟩ := claim_next_multi_some c p p' a h
  subst hp; rfl

theorem claim_next_counter_getD (c : Nat) (p p' : PoolSt) (a : Nat) (j : Nat)
    (h : claim_next false c p = some (a, p')) :
    p'.adapter_counters.getD j 0 = p.adapter_counters.getD j 0 -
      (if a = j + 1 then 1 else 0) := by
  obtain ⟨i, hi, ha, hp⟩ := claim_next_multi_some c p p' a h
  obtain ⟨hlt, hpos⟩ := (mem_remaining_iff _ _).mp hi
  subst hp; subst ha
  by_cases hij : i = j
  · subst hij
    simp only [List.getD_eq_getElem?_getD, List.getElem?_set_self hlt, if_pos rfl,
      Option.getD_some]
    simp
  · have hne : (i + 1 = j + 1) = False := by simp [hij]
    simp only [List.getD_eq_getElem?_getD, List.getElem?_set_ne hij, hne, if_false]
    ring

/-- A step either leaves the shared globals alone or performs exactly one
successful `claim_next` on them. -/
theorem wstep_pool (single : Bool) (s : Sys) (e : Ev) :
    (wstep single s e).pool = s.pool ∨
      ∃ a, claim_next single e.choice s.pool = some (a, (wstep single s e).pool) := by
  rcases wstep_cases single s e with h | ⟨ws, hg, hp, hl, h⟩ | ⟨ws, hg, hp, hl, hc, h⟩ |
    ⟨ws, a, p, hg, hp, hl, hc, h⟩ | ⟨ws, a, l, f, hg, hp, ho, h⟩ | ⟨ws, a, hg, hp, ho, h⟩ <;>
    rw [h]
  · exact Or.inl rfl
  · exact Or.inl rfl
  · exact Or.inl rfl
  · exact Or.inr ⟨a, hc⟩
  · exact Or.inl rfl
  · exact Or.inl rfl

theorem wstep_nonneg (single : Bool) (s : Sys) (e : Ev) (hn : InvNonneg s.pool) :
    InvNonneg (wstep single s e).pool := by
  rcases wstep_pool single s e with h | ⟨a, h⟩
  · rw [h]; exact hn
  · exact claim_next_nonneg single e.choice s.pool _ a h hn

theorem wstep_poolZ_le (single : Bool) (s : Sys) (e : Ev) :
    poolZ single (wstep single s e).pool ≤ poolZ single s.pool := by
  rcases wstep_pool single s e with h | ⟨a, h⟩
  · rw [h]
  · rw [claim_next_poolZ single e.choice s.pool _ a h]; omega

theorem wstep_exhausted_frame (single : Bool) (s : Sys) (e : Ev)
    (hx : exhausted single s.pool) : (wstep single s e).pool = s.pool := by
  rcases wstep_pool single s e with h | ⟨a, h⟩
  · exact h
  · rw [hx e.choice] at h; cases h

theorem wstep_single_counters (s : Sys) (e : Ev) :
    (wstep true s e).pool.adapter_counters = s.pool.adapter_counters := by
  rcases wstep_pool true s e with h | ⟨a, h⟩
  · rw [h]
  · exact claim_next_single_counters e.choice s.pool _ a h

theorem wstep_multi_total (s : Sys) (e : Ev) :
    (wstep false s e).pool.total_requests = s.pool.total_requests := by
  rcases wstep_pool false s e with h | ⟨a, h⟩
  · rw [h]
  · exact claim_next_multi_total e.choice s.pool _ a h

theorem wstep_lock (single : Bool) (s : Sys) (e : Ev) (hI : InvLock s) :
    InvLock (wstep single s e) := by
  obtain ⟨hI1, hI2⟩ := hI
  rcases wstep_cases single s e with h | ⟨ws, hg, hp, hl, h⟩ | ⟨ws, hg, hp, hl, hc, h⟩ |
    ⟨ws, a, p, hg, hp, hl, hc, h⟩ | ⟨ws, a, l, f, hg, hp, ho, h⟩ | ⟨ws, a, hg, hp, ho, h⟩
  · rw [h]; exact ⟨hI1, hI2⟩
  · have hlen : e.w < s.workers.length := (List.getElem?_eq_some.mp hg).1
    constructor
    · intro w hw
      have hew : e.w = w := by rw [h] at hw; simpa using hw
      subst hew
      refine ⟨{ ws with phase := Phase.claiming }, ?_, rfl⟩
      rw [h]
      exact List.getElem?_set_self hlen
    · intro w ws₂ hw hph₂
      by_cases hwe : e.w = w
      · subst hwe; rw [h]
      · rw [h] at hw
        simp only at hw
        rw [List.getElem?_set_ne hwe] at hw
        have := hI2 w ws₂ hw hph₂
        rw [hl] at this
        cases this
  · have hlen : e.w < s.workers.length := (List.getElem?_eq_some.mp hg).1
    constructor
    · intro w hw
      rw [h] at hw
      simp at hw
    · intro w ws₂ hw hph₂
      by_cases hwe : e.w = w
      · subst hwe
        rw [h] at hw
        simp only at hw
        rw [List.getElem?_set_self hlen] at hw
        injection hw with hw2
        rw [← hw2] at hph₂
        simp at hph₂
      · rw [h] at hw
        simp only at hw
        rw [List.getElem?_set_ne hwe] at hw
        have := hI2 w ws₂ hw hph₂
        rw [hl] at this
        injection this with hthis
        exact absurd hthis hwe
  · have hlen : e.w < s.workers.length := (List.getElem?_eq_some.mp hg).1
    constructor
    · intro w hw
      rw [h] at hw
      simp at hw
    · intro w ws₂ hw hph₂
      by_cases hwe : e.w = w
      · subst hwe
        rw [h] at hw
        simp only at hw
        rw [List.getElem?_set_self hlen] at hw
        injection hw with hw2
        rw [← hw2] at hph₂
        simp at hph₂
      · rw [h] at hw
        simp only at hw
        rw [List.getElem?_set_ne hwe] at hw
        have := hI2 w ws₂ hw hph₂
        rw [hl] at this
        injection this with hthis
        exact absurd hthis hwe
  · have hlen : e.w < s.workers.length := (List.getElem?_eq_some.mp hg).1
    constructor
    · intro w hw
      rw [h] at hw
      simp only at hw
      obtain ⟨ws₃, hg₃, hph₃⟩ := hI1 w hw
      have hwe : ¬(e.w = w) := by
        intro hew
        subst hew
        rw [hg] at hg₃
        injection hg₃ with h₃
        rw [← h₃] at hph₃
        rw [hp] at hph₃
        cases hph₃
      refine ⟨ws₃, ?_, hph₃⟩
      rw [h]
      simp only
      rw [List.getElem?_set_ne hwe]
      exact hg₃
    · intro w ws₂ hw hph₂
      by_cases hwe : e.w = w
      · subst hwe
        rw [h] at hw
        simp only at hw
        rw [List.getElem?_set_self hlen] at hw
        injection hw with hw2
        rw [← hw2] at hph₂
        simp at hph₂
      · rw [h] at hw
        simp only at hw
        rw [List.getElem?_set_ne hwe] at hw
        have := hI2 w ws₂ hw hph₂
        rw [h]
        exact this
  · have hlen : e.w < s.workers.length := (List.getElem?_eq_some.mp hg).1
    constructor
    · intro w hw
      rw [h] at hw
      simp only at hw
      obtain ⟨ws₃, hg₃, hph₃⟩ := hI1 w hw
      have hwe : ¬(e.w = w) := by
        intro hew
        subst hew
        rw [hg] at hg₃
        injection hg₃ with h₃
        rw [← h₃] at hph₃
        rw [hp] at hph₃
        cases hph₃
      refine ⟨ws₃, ?_, hph₃⟩
      rw [h]
      simp only
      rw [List.getElem?_set_ne hwe]
      exact hg₃
    · intro w ws₂ hw hph₂
      by_cases hwe : e.w = w
      · subst hwe
        rw [h] at hw
        simp only at hw
        rw [List.getElem?_set_self hlen] at hw
        injection hw with hw2
        rw [← hw2] at hph₂
        simp at hph₂
      · rw [h] at hw
        simp only at hw
        rw [List.getElem?_set_ne hwe] at hw
        have := hI2 w ws₂ hw hph₂
        rw [h]
        exact this

theorem wstep_count (single : Bool) (base : Int) (s : Sys) (e : Ev)
    (hC : InvCount single base s) : InvCount single base (wstep single s e) := by
  rcases wstep_cases single s e with h | ⟨ws, hg, hp, hl, h⟩ | ⟨ws, hg, hp, hl, hc, h⟩ |
    ⟨ws, a, p, hg, hp, hl, hc, h⟩ | ⟨ws, a, l, f, hg, hp, ho, h⟩ | ⟨ws, a, hg, hp, ho, h⟩
  · rw [h]; exact hC
  · have hP : (wstep single s e).pool = s.pool := by rw [h]
    have hW : (wstep single s e).workers =
        s.workers.set e.w ({ ws with phase := Phase.claiming }) := by rw [h]
    unfold InvCount wsum at hC ⊢
    rw [hP, hW, int_sum_map_set latI _ _ ws _ hg, int_sum_map_set reqI _ _ ws _ hg,
      int_sum_map_set crashI _ _ ws _ hg]
    simp [latI, reqI, crashI, is_requesting, hp] at hC ⊢
    omega
  · have hP : (wstep single s e).pool = s.pool := by rw [h]
    have hW : (wstep single s e).workers =
        s.workers.set e.w ({ ws with phase := Phase.done }) := by rw [h]
    unfold InvCount wsum at hC ⊢
    rw [hP, hW, int_sum_map_set latI _ _ ws _ hg, int_sum_map_set reqI _ _ ws _ hg,
      int_sum_map_set crashI _ _ ws _ hg]
    simp [latI, reqI, crashI, is_requesting, hp] at hC ⊢
    omega
  · have hP : (wstep single s e).pool = p := by rw [h]
    have hW : (wstep single s e).workers =
        s.workers.set e.w ({ ws with phase := Phase.requesting a }) := by rw [h]
    have hZ : poolZ single p = poolZ single s.pool - 1 :=
      claim_next_poolZ single e.choice s.pool p a hc
    unfold InvCount wsum at hC ⊢
    rw [hP, hW, hZ, int_sum_map_set latI _ _ ws _ hg, int_sum_map_set reqI _ _ ws _ hg,
      int_sum_map_set crashI _ _ ws _ hg]
    simp [latI, reqI, crashI, is_requesting, hp] at hC ⊢
    omega
  · have hP : (wstep single s e).pool = s.pool := by rw [h]
    have hW : (wstep single s e).workers =
        s.workers.set e.w ({ ws with phase := Phase.ready, lats := ws.lats ++ [l] }) := by
      rw [h]
    unfold InvCount wsum at hC ⊢
    rw [hP, hW, int_sum_map_set latI _ _ ws _ hg, int_sum_map_set reqI _ _ ws _ hg,
      int_sum_map_set crashI _ _ ws _ hg]
    simp [latI, reqI, crashI, is_requesting, hp, List.length_append,
      List.length_cons, List.length_nil] at hC ⊢
    omega
  · have hP : (wstep single s e).pool = s.pool := by rw [h]
    have hW : (wstep single s e).workers =
        s.workers.set e.w ({ ws with phase := Phase.crashed }) := by rw [h]
    unfold InvCount wsum at hC ⊢
    rw [hP, hW, int_sum_map_set latI _ _ ws _ hg, int_sum_map_set reqI _ _ ws _ hg,
      int_sum_map_set crashI _ _ ws _ hg]
    simp [latI, reqI, crashI, is_requesting, hp] at hC ⊢
    omega

theorem wstep_done (single : Bool) (s : Sys) (e : Ev) (hD : InvDone single s)
    : InvDone single (wstep single s e) := by
  rcases wstep_cases single s e with h | ⟨ws, hg, hp, hl, h⟩ | ⟨ws, hg, hp, hl, hc, h⟩ |
    ⟨ws, a, p, hg, hp, hl, hc, h⟩ | ⟨ws, a, l, f, hg, hp, ho, h⟩ | ⟨ws, a, hg, hp, ho, h⟩
  · rw [h]; exact hD
  · intro hex
    obtain ⟨ws₂, hmem, hph₂⟩ := hex
    rw [h] at hmem
    simp only at hmem
    have hP : (wstep single s e).pool = s.pool := by rw [h]
    rw [hP]
    rcases List.mem_or_eq_of_mem_set hmem with hm | hm
    · exact hD ⟨ws₂, hm, hph₂⟩
    · subst hm; cases hph₂
  · intro _
    have hP : (wstep single s e).pool = s.pool := by rw [h]
    rw [hP]
    exact exhausted_of_claim_none single e.choice s.pool hc
  · intro hex
    obtain ⟨ws₂, hmem, hph₂⟩ := hex
    rw [h] at hmem
    simp only at hmem
    rcases List.mem_or_eq_of_mem_set hmem with hm | hm
    · have hx := hD ⟨ws₂, hm, hph₂⟩
      rw [hx e.choice] at hc
      cases hc
    · subst hm; cases hph₂
  · intro hex
    obtain ⟨ws₂, hmem, hph₂⟩ := hex
    rw [h] at hmem
    simp only at hmem
    have hP : (wstep single s e).pool = s.pool := by rw [h]
    rw [hP]
    rcases List.mem_or_eq_of_mem_set hmem with hm | hm
    · exact hD ⟨ws₂, hm, hph₂⟩
    · subst hm; cases hph₂
  · intro hex
    obtain ⟨ws₂, hmem, hph₂⟩ := hex
    rw [h] at hmem
    simp only at hmem
    have hP : (wstep single s e).pool = s.pool := by rw [h]
    rw [hP]
    rcases List.mem_or_eq_of_mem_set hmem with hm | hm
    · exact hD ⟨ws₂, hm, hph₂⟩
    · subst hm; cases hph₂

/-- Fold a step-preserved property over a whole schedule. -/
theorem run_events_preserve (single : Bool) (P : Sys → Prop)
    (hstep : ∀ s e, P s → P (wstep single s e)) :
    ∀ (evs : List Ev) (s : Sys), P s → P (run_events single s evs) := by
  intro evs
  induction evs with
  | nil => intro s h; exact h
  | cons e evs ih => intro s h; exact ih _ (hstep s e h)

theorem wstep_poolZ_claim (single : Bool) (s : Sys) (e : Ev) :
    poolZ single (wstep single s e).pool =
      poolZ single s.pool - (claim_ind single s e : Int) := by
  cases hget : s.workers[e.w]? with
  | none =>
    rw [wstep_of_get_none single s e hget]
    simp [claim_ind, hget]
  | some ws =>
    have hw := wstep_of_get single s e ws hget
    by_cases hcl : ws.phase = Phase.claiming ∧ s.lock = some e.w
    · obtain ⟨hp, hl⟩ := hcl
      rw [hw, app_ev_claiming single s e ws hp, if_pos hl]
      cases hc : claim_next single e.choice s.pool with
      | none => simp [claim_ind, hget, hp, hl, hc]
      | some ap =>
        obtain ⟨a, p⟩ := ap
        have hz := claim_next_poolZ single e.choice s.pool p a hc
        simp [claim_ind, hget, hp, hl, hc, hz]
    · have hind : claim_ind single s e = 0 := by
        simp [claim_ind, hget, hcl]
      rw [hind]
      rcases wstep_cases single s e with h | ⟨ws₂, hg₂, hp₂, hl₂, h⟩ |
        ⟨ws₂, hg₂, hp₂, hl₂, hc₂, h⟩ | ⟨ws₂, a, p, hg₂, hp₂, hl₂, hc₂, h⟩ |
        ⟨ws₂, a, l, f, hg₂, hp₂, ho₂, h⟩ | ⟨ws₂, a, hg₂, hp₂, ho₂, h⟩
      · rw [h]; simp
      · rw [h]; simp
      · rw [hget] at hg₂
        injection hg₂ with hg₂
        subst hg₂
        exact absurd ⟨hp₂, hl₂⟩ hcl
      · rw [hget] at hg₂
        injection hg₂ with hg₂
        subst hg₂
        exact absurd ⟨hp₂, hl₂⟩ hcl
      · rw [h]; simp
      · rw [h]; simp

theorem wstep_counter_claim (s : Sys) (e : Ev) (i : Nat) :
    (wstep false s e).pool.adapter_counters.getD i 0 =
      s.pool.adapter_counters.getD i 0 - (claim_ind_target false i s e : Int) := by
  cases hget : s.workers[e.w]? with
  | none =>
    rw [wstep_of_get_none false s e hget]
    simp [claim_ind_target, hget]
  | some ws =>
    have hw := wstep_of_get false s e ws hget
    by_cases hcl : ws.phase = Phase.claiming ∧ s.lock = some e.w
    · obtain ⟨hp, hl⟩ := hcl
      rw [hw, app_ev_claiming false s e ws hp, if_pos hl]
      cases hc : claim_next false e.choice s.pool with
      | none => simp [claim_ind_target, hget, hp, hl, hc]
      | some ap =>
        obtain ⟨a, p⟩ := ap
        have hz := claim_next_counter_getD e.choice s.pool p a i hc
        simp only [claim_ind_target, hget, hp, hl, and_self, if_pos, hc, hz]
        by_cases ha : a = i + 1 <;> simp [ha]
    · have hind : claim_ind_target false i s e = 0 := by
        simp [claim_ind_target, hget, hcl]
      rw [hind]
      rcases wstep_cases false s e with h | ⟨ws₂, hg₂, hp₂, hl₂, h⟩ |
        ⟨ws₂, hg₂, hp₂, hl₂, hc₂, h⟩ | ⟨ws₂, a, p, hg₂, hp₂, hl₂, hc₂, h⟩ |
        ⟨ws₂, a, l, f, hg₂, hp₂, ho₂, h⟩ | ⟨ws₂, a, hg₂, hp₂, ho₂, h⟩
      · rw [h]; simp
      · rw [h]; simp
      · rw [hget] at hg₂
        injection hg₂ with hg₂
        subst hg₂
        exact absurd ⟨hp₂, hl₂⟩ hcl
      · rw [hget] at hg₂
        injection hg₂ with hg₂
        subst hg₂
        exact absurd ⟨hp₂, hl₂⟩ hcl
      · rw [h]; simp
      · rw [h]; simp

/-- The successful-claim count along a schedule is exactly what left the pool. -/
theorem claims_made_poolZ (single : Bool) :
    ∀ (evs : List Ev) (s : Sys),
      (claims_made single s evs : Int) =
        poolZ single s.pool - poolZ single (run_events single s evs).pool := by
  intro evs
  induction evs with
  | nil => intro s; simp [claims_made, run_events]
  | cons e evs ih =>
    intro s
    have hstep := wstep_poolZ_claim single s e
    have hrun : run_events single s (e :: evs) =
        run_events single (wstep single s e) evs := rfl
    rw [hrun, claims_made]
    push_cast
    rw [ih (wstep single s e)]
    omega

/-- The per-adapter successful-claim count is exactly what left that
adapter's counter. -/
theorem claims_of_target_counter (i : Nat) :
    ∀ (evs : List Ev) (s : Sys),
      (claims_of_target false i s evs : Int) =
        s.pool.adapter_counters.getD i 0 -
          (run_events false s evs).pool.adapter_counters.getD i 0 := by
  intro evs
  induction evs with
  | nil => intro s; simp [claims_of_target, run_events]
  | cons e evs ih =>
    intro s
    have hstep := wstep_counter_claim s e i
    have hrun : run_events false s (e :: evs) =
        run_events false (wstep false s e) evs := rfl
    rw [hrun, claims_of_target]
    push_cast
    rw [ih (wstep false s e)]
    omega

theorem run_events_nonneg (single : Bool) (evs : List Ev) (s : Sys)
    (hn : InvNonneg s.pool) : InvNonneg (run_events single s evs).pool :=
  run_events_preserve single (fun t => InvNonneg t.pool)
    (fun t e h => wstep_nonneg single t e h) evs s hn

theorem run_events_lock (single : Bool) (evs : List Ev) (s : Sys)
    (hI : InvLock s) : InvLock (run_events single s evs) :=
  run_events_preserve single InvLock (fun t e h => wstep_lock single t e h) evs s hI

theorem run_events_count (single : Bool) (base : Int) (evs : List Ev) (s : Sys)
    (hC : InvCount single base s) : InvCount single base (run_events single s evs) :=
  run_events_preserve single (InvCount single base)
    (fun t e h => wstep_count single base t e h) evs s hC

theorem run_events_done (single : Bool) (evs : List Ev) (s : Sys)
    (hD : InvDone single s) : InvDone single (run_events single s evs) :=
  run_events_preserve single (InvDone single) (fun t e h => wstep_done single t e h) evs s hD

theorem run_events_poolZ_le (single : Bool) (evs : List Ev) (s : Sys) :
    poolZ single (run_events single s evs).pool ≤ poolZ single s.pool :=
  run_events_preserve single (fun t => poolZ single t.pool ≤ poolZ single s.pool)
    (fun t e h => le_trans (wstep_poolZ_le single t e) h) evs s le_rfl

theorem run_events_exhausted_frame (single : Bool) (evs : List Ev) (s : Sys)
    (hx : exhausted single s.pool) : (run_events single s evs).pool = s.pool :=
  run_events_preserve single (fun t => t.pool = s.pool)
    (fun t e h => by
      have h' : t.pool = s.pool := h
      have hx' : exhausted single t.pool := by rw [h']; exact hx
      show (wstep single t e).pool = s.pool
      rw [wstep_exhausted_frame single t e hx', h']) evs s rfl

theorem run_events_single_counters (evs : List Ev) (s : Sys) :
    (run_events true s evs).pool.adapter_counters = s.pool.adapter_counters :=
  run_events_preserve true (fun t => t.pool.adapter_counters = s.pool.adapter_counters)
    (fun t e h => by
      have h' : t.pool.adapter_counters = s.pool.adapter_counters := h
      show (wstep true t e).pool.adapter_counters = s.pool.adapter_counters
      rw [wstep_single_counters t e, h']) evs s rfl

theorem run_events_multi_total (evs : List Ev) (s : Sys) :
    (run_events false s evs).pool.total_requests = s.pool.total_requests :=
  run_events_preserve false (fun t => t.pool.total_requests = s.pool.total_requests)
    (fun t e h => by
      have h' : t.pool.total_requests = s.pool.total_requests := h
      show (wstep false t e).pool.total_requests = s.pool.total_requests
      rw [wstep_multi_total t e, h']) evs s rfl

theorem run_events_counter_le (evs : List Ev) (s : Sys) (i : Nat) :
    (run_events false s evs).pool.adapter_counters.getD i 0 ≤
      s.pool.adapter_counters.getD i 0 := by
  have h := claims_of_target_counter i evs s
  omega

theorem init_nonneg (B N W : Nat) : InvNonneg (init_sys B N W).pool := by
  constructor
  · simp [init_sys]
  · intro c hc
    simp only [init_sys, List.mem_replicate] at hc
    rw [hc.2]
    positivity

theorem init_lock (B N W : Nat) : InvLock (init_sys B N W) := by
  constructor
  · intro w hw
    simp [init_sys] at hw
  · intro w ws hg hph
    simp only [init_sys, List.getElem?_replicate] at hg
    by_cases hlt : w < W
    · rw [if_pos hlt] at hg
      injection hg with hg
      rw [← hg] at hph
      cases hph
    · rw [if_neg hlt] at hg
      cases hg

theorem init_poolZ_single (B N W : Nat) : poolZ true (init_sys B N W).pool = (B : Int) := by
  simp [poolZ, init_sys]

theorem init_poolZ_multi (B N W : Nat) :
    poolZ false (init_sys B N W).pool = (N : Int) * ((B / N : Nat) : Int) := by
  simp only [poolZ, init_sys, Bool.false_eq_true, if_false, List.sum_replicate,
    nsmul_eq_mul]

theorem init_count (single : Bool) (B N W : Nat) :
    InvCount single (poolZ single (init_sys B N W).pool) (init_sys B N W) := by
  unfold InvCount wsum
  simp [init_sys, latI, reqI, crashI, is_requesting, List.map_replicate]

theorem init_done (single : Bool) (B N W : Nat) : InvDone single (init_sys B N W) := by
  intro hex
  obtain ⟨ws, hmem, hph⟩ := hex
  simp only [init_sys, List.mem_replicate] at hmem
  rw [hmem.2] at hph
  cases hph

theorem wstep_workers_length (single : Bool) (s : Sys) (e : Ev) :
    (wstep single s e).workers.length = s.workers.length := by
  rcases wstep_cases single s e with h | ⟨ws, hg, hp, hl, h⟩ | ⟨ws, hg, hp, hl, hc, h⟩ |
    ⟨ws, a, p, hg, hp, hl, hc, h⟩ | ⟨ws, a, l, f, hg, hp, ho, h⟩ | ⟨ws, a, hg, hp, ho, h⟩ <;>
    rw [h] <;> simp [List.length_set]

theorem run_events_workers_length (single : Bool) (evs : List Ev) (s : Sys) :
    (run_events single s evs).workers.length = s.workers.length :=
  run_events_preserve single (fun t => t.workers.length = s.workers.length)
    (fun t e h => by
      have h' : t.workers.length = s.workers.length := h
      show (wstep single t e).workers.length = s.workers.length
      rw [wstep_workers_length single t e, h']) evs s rfl

theorem exhausted_poolZ_zero (single : Bool) (p : PoolSt) (hx : exhausted single p)
    (hn : InvNonneg p) : poolZ single p = 0 := by
  cases single
  · have hnil := (claim_next_multi_none_iff 0 p).mp (hx 0)
    have hall := (remaining_nil_iff _).mp hnil
    simp only [poolZ, Bool.false_eq_true, if_false]
    exact List.sum_eq_zero fun c hc => le_antisymm (hall c hc) (hn.2 c hc)
  · have h0 := (claim_next_single_none_iff 0 p).mp (hx 0)
    have h1 := hn.1
    simp only [poolZ, if_true]
    omega

theorem exhausted_counts_zero (single : Bool) (p : PoolSt) (hx : exhausted single p)
    (hn : InvNonneg p) : ∀ c ∈ pool_counts single p, c = 0 := by
  cases single
  · have hnil := (claim_next_multi_none_iff 0 p).mp (hx 0)
    have hall := (remaining_nil_iff _).mp hnil
    intro c hc
    simp only [pool_counts, Bool.false_eq_true, if_false] at hc
    exact le_antisymm (hall c hc) (hn.2 c hc)
  · have h0 := (claim_next_single_none_iff 0 p).mp (hx 0)
    have h1 := hn.1
    intro c hc
    simp only [pool_counts, if_true, List.mem_singleton] at hc
    subst hc
    omega

theorem wsum_eq_zero (f : WState → Int) (s : Sys)
    (h : ∀ ws ∈ s.workers, f ws = 0) : wsum f s = 0 := by
  apply List.sum_eq_zero
  intro x hx
  obtain ⟨ws, hmem, hfx⟩ := List.mem_map.mp hx
  rw [← hfx]
  exact h ws hmem

theorem total_requests_made_int (s : Sys) :
    (total_requests_made s : Int) = wsum recI s := by
  unfold total_requests_made all_latencies wsum recI
  rw [Nat.cast_list_sum, List.map_map, List.map_map]
  rfl

theorem recI_le_latI (ws : WState) : recI ws ≤ latI ws := by
  unfold recI latI recorded
  split
  · exact le_rfl
  · simp

theorem wsum_le_wsum (f g : WState → Int) (s : Sys) (h : ∀ ws ∈ s.workers, f ws ≤ g ws) :
    wsum f s ≤ wsum g s :=
  List.sum_le_sum h

/-- At a state where every worker has finished normally, the pool is fully
drained, every unit of the initial pool shows up as a recorded measurement,
and the number of successful claims equals the initial pool content. -/
theorem terminal_drained (single : Bool) (B N W : Nat) (evs : List Ev)
    (hW : 0 < W) (hd : all_done (run_events single (init_sys B N W) evs)) :
    poolZ single (run_events single (init_sys B N W) evs).pool = 0 ∧
    (total_requests_made (run_events single (init_sys B N W) evs) : Int) =
      poolZ single (init_sys B N W).pool ∧
    (claims_made single (init_sys B N W) evs : Int) =
      poolZ single (init_sys B N W).pool := by
  set s0 := init_sys B N W with hs0
  set s1 := run_events single s0 evs with hs1
  have hlen : s1.workers.length = W := by
    rw [hs1, run_events_workers_length]
    simp [hs0, init_sys]
  have hne : s1.workers ≠ [] := by
    intro hnil
    rw [hnil] at hlen
    simp at hlen
    omega
  obtain ⟨ws0, hmem0⟩ := List.exists_mem_of_ne_nil s1.workers hne
  have hx : exhausted single s1.pool :=
    run_events_done single evs s0 (init_done single B N W) ⟨ws0, hmem0, hd ws0 hmem0⟩
  have hnn : InvNonneg s1.pool := run_events_nonneg single evs s0 (init_nonneg B N W)
  have hz : poolZ single s1.pool = 0 := exhausted_poolZ_zero single s1.pool hx hnn
  have hcount : InvCount single (poolZ single s0.pool) s1 :=
    run_events_count single _ evs s0 (init_count single B N W)
  have hreq : wsum reqI s1 = 0 := by
    apply wsum_eq_zero
    intro ws hmem
    simp [reqI, is_requesting, hd ws hmem]
  have hcrash : wsum crashI s1 = 0 := by
    apply wsum_eq_zero
    intro ws hmem
    simp [crashI, hd ws hmem]
  have hrec : wsum recI s1 = wsum latI s1 := by
    unfold wsum
    congr 1
    apply List.map_congr_left
    intro ws hmem
    simp [recI, latI, recorded, hd ws hmem]
  unfold InvCount at hcount
  refine ⟨hz, ?_, ?_⟩
  · rw [total_requests_made_int, hrec]
    omega
  · rw [claims_made_poolZ single evs s0, hz]
    omega

theorem wstep_V_lt (single : Bool) (s : Sys) (e : Ev)
    (hne : wstep single s e ≠ s) :
    measure_V single (wstep single s e) ≤ measure_V single s - 1 := by
  rcases wstep_cases single s e with h | ⟨ws, hg, hp, hl, h⟩ | ⟨ws, hg, hp, hl, hc, h⟩ |
    ⟨ws, a, p, hg, hp, hl, hc, h⟩ | ⟨ws, a, l, f, hg, hp, ho, h⟩ | ⟨ws, a, hg, hp, ho, h⟩
  · exact absurd h hne
  · have hP : (wstep single s e).pool = s.pool := by rw [h]
    have hW : (wstep single s e).workers =
        s.workers.set e.w ({ ws with phase := Phase.claiming }) := by rw [h]
    unfold measure_V wsum
    rw [hP, hW, int_sum_map_set weightI _ _ ws _ hg]
    simp [weightI, phase_weight, hp]
    omega
  · have hP : (wstep single s e).pool = s.pool := by rw [h]
    have hW : (wstep single s e).workers =
        s.workers.set e.w ({ ws with phase := Phase.done }) := by rw [h]
    unfold measure_V wsum
    rw [hP, hW, int_sum_map_set weightI _ _ ws _ hg]
    simp [weightI, phase_weight, hp]
    omega
  · have hP : (wstep single s e).pool = p := by rw [h]
    have hW : (wstep single s e).workers =
        s.workers.set e.w ({ ws with phase := Phase.requesting a }) := by rw [h]
    have hZ : poolZ single p = poolZ single s.pool - 1 :=
      claim_next_poolZ single e.choice s.pool p a hc
    unfold measure_V wsum
    rw [hP, hW, hZ, int_sum_map_set weightI _ _ ws _ hg]
    simp [weightI, phase_weight, hp]
    omega
  · have hP : (wstep single s e).pool = s.pool := by rw [h]
    have hW : (wstep single s e).workers =
        s.workers.set e.w ({ ws with phase := Phase.ready, lats := ws.lats ++ [l] }) := by
      rw [h]
    unfold measure_V wsum
    rw [hP, hW, int_sum_map_set weightI _ _ ws _ hg]
    simp [weightI, phase_weight, hp]
    omega
  · have hP : (wstep single s e).pool = s.pool := by rw [h]
    have hW : (wstep single s e).workers =
        s.workers.set e.w ({ ws with phase := Phase.crashed }) := by rw [h]
    unfold measure_V wsum
    rw [hP, hW, int_sum_map_set weightI _ _ ws _ hg]
    simp [weightI, phase_weight, hp]
    omega

theorem measure_V_nonneg (single : Bool) (s : Sys) (hn : InvNonneg s.pool) :
    0 ≤ measure_V single s := by
  have h1 : 0 ≤ poolZ single s.pool := by
    cases single
    · exact List.sum_nonneg hn.2
    · exact hn.1
  have h2 : 0 ≤ wsum weightI s := by
    apply List.sum_nonneg
    intro x hx
    obtain ⟨ws, _, hfx⟩ := List.mem_map.mp hx
    rw [← hfx]
    exact Int.natCast_nonneg _
  unfold measure_V
  omega

/-- Every schedule makes at most `measure_V` many non-stuttering steps: the
worker loops cannot run forever. -/
theorem prod_count_le_V (single : Bool) :
    ∀ (evs : List Ev) (s : Sys), InvNonneg s.pool →
      (prod_count single s evs : Int) ≤ measure_V single s := by
  intro evs
  induction evs with
  | nil =>
    intro s hn
    simpa [prod_count] using measure_V_nonneg single s hn
  | cons e evs ih =>
    intro s hn
    have hn' := wstep_nonneg single s e hn
    have ihs := ih (wstep single s e) hn'
    rw [prod_count]
    by_cases hst : wstep single s e = s
    · rw [if_pos hst, hst]
      rw [hst] at ihs
      push_cast
      omega
    · rw [if_neg hst]
      have hd := wstep_V_lt single s e hst
      push_cast
      omega

theorem ne_of_lock (s t : Sys) (h : s.lock ≠ t.lock) : s ≠ t :=
  fun he => h (congrArg Sys.lock he)

theorem ne_of_get (w : Nat) (s t : Sys) (h : s.workers[w]? ≠ t.workers[w]?) : s ≠ t :=
  fun he => h (congrArg (fun u => u.workers[w]?) he)

/-- Deadlock freedom: as long as some worker has not terminated, some event
makes progress (so a fair scheduler finishes the run). -/
theorem progress (single : Bool) (s : Sys) (hI : InvLock s)
    (hns : ¬ all_stopped s) : ∃ e, wstep single s e ≠ s := by
  unfold all_stopped at hns
  push_neg at hns
  obtain ⟨ws, hmem, hph⟩ := hns
  obtain ⟨w, hg⟩ := List.mem_iff_getElem?.mp hmem
  have hlen : w < s.workers.length := (List.getElem?_eq_some.mp hg).1
  cases hphase : ws.phase with
  | ready =>
    cases hl : s.lock with
    | none =>
      refine ⟨⟨w, 0, some (0, true)⟩, ?_⟩
      have h := wstep_of_get single s ⟨w, 0, some (0, true)⟩ ws hg
      rw [h, app_ev_ready _ _ _ _ hphase, if_pos hl]
      apply ne_of_lock
      rw [hl]
      simp
    | some w2 =>
      obtain ⟨ws₃, hg₃, hph₃⟩ := hI.1 w2 hl
      refine ⟨⟨w2, 0, some (0, true)⟩, ?_⟩
      have h := wstep_of_get single s ⟨w2, 0, some (0, true)⟩ ws₃ hg₃
      rw [h, app_ev_claiming _ _ _ _ hph₃, if_pos hl]
      cases hc : claim_next single 0 s.pool with
      | none =>
        apply ne_of_lock
        rw [hl]
        simp
      | some ap =>
        obtain ⟨a, p⟩ := ap
        apply ne_of_lock
        rw [hl]
        simp
  | claiming =>
    have hl := hI.2 w ws hg hphase
    refine ⟨⟨w, 0, some (0, true)⟩, ?_⟩
    have h := wstep_of_get single s ⟨w, 0, some (0, true)⟩ ws hg
    rw [h, app_ev_claiming _ _ _ _ hphase, if_pos hl]
    cases hc : claim_next single 0 s.pool with
    | none =>
      apply ne_of_lock
      rw [hl]
      simp
    | some ap =>
      obtain ⟨a, p⟩ := ap
      apply ne_of_lock
      rw [hl]
      simp
  | requesting a =>
    refine ⟨⟨w, 0, some (0, true)⟩, ?_⟩
    have h := wstep_of_get single s ⟨w, 0, some (0, true)⟩ ws hg
    rw [h, app_ev_requesting _ _ _ _ a hphase]
    apply ne_of_get w
    simp only
    rw [List.getElem?_set_self hlen, hg]
    intro heq
    injection heq with heq
    have := congrArg WState.phase heq
    simp [hphase] at this
  | done => exact absurd hphase hph.1
  | crashed => exact absurd hphase hph.2

theorem aggregate_ok (s : Sys) (elapsed : ℚ) (h1 : total_requests_made s ≠ 0)
    (h2 : elapsed ≠ 0) :
    aggregate s elapsed = Except.ok
      { average_latency := total_latency s / (total_requests_made s : ℚ),
        throughput := (total_requests_made s : ℚ) / elapsed } := by
  unfold aggregate
  rw [if_neg h1, if_neg h2]

theorem aggregate_error_of_zero (s : Sys) (elapsed : ℚ)
    (h : total_requests_made s = 0) :
    aggregate s elapsed = Except.error "ZeroDivisionError" := by
  unfold aggregate
  rw [if_pos h]

theorem wstep_no_workers (single : Bool) (s : Sys) (e : Ev) (h : s.workers = []) :
    wstep single s e = s := by
  apply wstep_of_get_none
  rw [h]
  simp

theorem run_events_no_workers (single : Bool) :
    ∀ (evs : List Ev) (s : Sys), s.workers = [] → run_events single s evs = s := by
  intro evs
  induction evs with
  | nil => intro s _; rfl
  | cons e evs ih =>
    intro s h
    show run_events single (wstep single s e) evs = s
    rw [wstep_no_workers single s e h]
    exact ih s h

theorem claims_made_no_workers (single : Bool) :
    ∀ (evs : List Ev) (s : Sys), s.workers = [] → claims_made single s evs = 0 := by
  intro evs
  induction evs with
  | nil => intro s _; rfl
  | cons e evs ih =>
    intro s h
    have hg : s.workers[e.w]? = none := by rw [h]; simp
    rw [claims_made, wstep_no_workers single s e h, ih s h]
    simp [claim_ind, hg]

theorem total_requests_made_zero (s : Sys)
    (h : ∀ ws ∈ s.workers, recorded ws = []) : total_requests_made s = 0 := by
  unfold total_requests_made all_latencies
  apply List.sum_eq_zero
  intro x hx
  rw [List.map_map] at hx
  obtain ⟨ws, hmem, hfx⟩ := List.mem_map.mp hx
  rw [← hfx]
  simp [Function.comp, h ws hmem]

theorem nonneg_getD (p : PoolSt) (hn : InvNonneg p) (i : Nat) :
    0 ≤ p.adapter_counters.getD i 0 := by
  rw [List.getD_eq_getElem?_getD]
  cases hx : p.adapter_counters[i]? with
  | none => simp
  | some c =>
    simp only [Option.getD_some]
    exact hn.2 c (List.getElem?_mem hx)

theorem nonneg_pool_counts (single : Bool) (p : PoolSt) (hn : InvNonneg p) :
    ∀ c ∈ pool_counts single p, 0 ≤ c := by
  cases single
  · intro c hc
    simp only [pool_counts, Bool.false_eq_true, if_false] at hc
    exact hn.2 c hc
  · intro c hc
    simp only [pool_counts, if_true, List.mem_singleton] at hc
    rw [hc]
    exact hn.1

theorem wsum_reqI_nonneg (s : Sys) : 0 ≤ wsum reqI s := by
  apply List.sum_nonneg
  intro x hx
  obtain ⟨ws, _, hfx⟩ := List.mem_map.mp hx
  rw [← hfx]
  unfold reqI
  split <;> simp

theorem wsum_crashI_nonneg (s : Sys) : 0 ≤ wsum crashI s := by
  apply List.sum_nonneg
  intro x hx
  obtain ⟨ws, _, hfx⟩ := List.mem_map.mp hx
  rw [← hfx]
  unfold crashI
  split <;> simp

/-- The ignored success flag of a returned response never influences a step. -/
theorem wstep_outcome_flag (single : Bool) (s : Sys) (w c : Nat) (l : ℚ) (f1 f2 : Bool) :
    wstep single s ⟨w, c, some (l, f1)⟩ = wstep single s ⟨w, c, some (l, f2)⟩ := by
  unfold wstep
  cases hget : s.workers[w]? with
  | none => rfl
  | some ws =>
    unfold app_ev
    cases hph : ws.phase <;> rfl

/-- A raised request crashes its worker: the worker ends `crashed` and its
whole local latency list is dropped from the published record. -/
theorem wstep_crash_drops (single : Bool) (s : Sys) (e : Ev) (ws : WState) (a : Nat)
    (hg : s.workers[e.w]? = some ws) (hp : ws.phase = Phase.requesting a)
    (ho : e.outcome = none) :
    (wstep single s e).workers[e.w]? = some ({ ws with phase := Phase.crashed }) ∧
      recorded ({ ws with phase := Phase.crashed }) = [] := by
  have hlen : e.w < s.workers.length := (List.getElem?_eq_some.mp hg).1
  constructor
  · rw [wstep_of_get single s e ws hg, app_ev_requesting single s e ws a hp, ho]
    simp only
    exact List.getElem?_set_self hlen
  · rfl

theorem poolZ_nonneg (single : Bool) (p : PoolSt) (hn : InvNonneg p) :
    0 ≤ poolZ single p := by
  cases single
  · simp only [poolZ, Bool.false_eq_true, if_false]
    exact List.sum_nonneg hn.2
  · simp only [poolZ, if_true]
    exact hn.1

theorem init_zero_exhausted (single : Bool) (N W : Nat) :
    exhausted single (init_sys 0 N W).pool := by
  intro c
  cases single
  · rw [claim_next_multi_none_iff, remaining_nil_iff]
    intro x hx
    simp only [init_sys, List.mem_replicate] at hx
    rw [hx.2]
    simp
  · rw [claim_next_single_none_iff]
    simp [init_sys]

/-- In a zero-budget run every worker stays inside the claim loop's
non-request path: it never gets work, never records a latency, and can only
be at the loop top, inside the lock, or finished. -/
theorem zero_budget_workers (single : Bool) (N W : Nat) (evs : List Ev) :
    (run_events single (init_sys 0 N W) evs).pool = (init_sys 0 N W).pool ∧
    ∀ ws ∈ (run_events single (init_sys 0 N W) evs).workers,
      ws.lats = [] ∧
        (ws.phase = Phase.ready ∨ ws.phase = Phase.claiming ∨ ws.phase = Phase.done) := by
  have hx := init_zero_exhausted single N W
  refine run_events_preserve single
    (fun t => t.pool = (init_sys 0 N W).pool ∧
      ∀ ws ∈ t.workers,
        ws.lats = [] ∧
          (ws.phase = Phase.ready ∨ ws.phase = Phase.claiming ∨ ws.phase = Phase.done))
    ?_ evs (init_sys 0 N W) ⟨rfl, ?_⟩
  · intro t e ht
    obtain ⟨hpool, hgood⟩ := ht
    rcases wstep_cases single t e with h | ⟨ws, hg, hp, hl, h⟩ | ⟨ws, hg, hp, hl, hc, h⟩ |
      ⟨ws, a, p, hg, hp, hl, hc, h⟩ | ⟨ws, a, l, f, hg, hp, ho, h⟩ | ⟨ws, a, hg, hp, ho, h⟩
    · rw [h]; exact ⟨hpool, hgood⟩
    · have hws := hgood ws (List.getElem?_mem hg)
      constructor
      · have hP : (wstep single t e).pool = t.pool := by rw [h]
        rw [hP, hpool]
      · intro ws₂ hmem
        have hW : (wstep single t e).workers =
            t.workers.set e.w ({ ws with phase := Phase.claiming }) := by rw [h]
        rw [hW] at hmem
        rcases List.mem_or_eq_of_mem_set hmem with hm | hm
        · exact hgood ws₂ hm
        · rw [hm]
          exact ⟨hws.1, Or.inr (Or.inl rfl)⟩
    · have hws := hgood ws (List.getElem?_mem hg)
      constructor
      · have hP : (wstep single t e).pool = t.pool := by rw [h]
        rw [hP, hpool]
      · intro ws₂ hmem
        have hW : (wstep single t e).workers =
            t.workers.set e.w ({ ws with phase := Phase.done }) := by rw [h]
        rw [hW] at hmem
        rcases List.mem_or_eq_of_mem_set hmem with hm | hm
        · exact hgood ws₂ hm
        · rw [hm]
          exact ⟨hws.1, Or.inr (Or.inr rfl)⟩
    · rw [hpool] at hc
      rw [hx e.choice] at hc
      cases hc
    · have hws := hgood ws (List.getElem?_mem hg)
      rw [hp] at hws
      rcases hws.2 with h2 | h2 | h2 <;> cases h2
    · have hws := hgood ws (List.getElem?_mem hg)
      rw [hp] at hws
      rcases hws.2 with h2 | h2 | h2 <;> cases h2
  · intro ws hmem
    simp only [init_sys, List.mem_replicate] at hmem
    rw [hmem.2]
    exact ⟨rfl, Or.inl rfl⟩

/-- C4: in every reachable state of a benchmark run, no remaining count (the
global counter or any per-target counter) is negative; from any reached state
the sum of remaining counts never increases along any further schedule; once
the pool is exhausted it stays exhausted permanently (the shared globals never
change again, so no claim ever succeeds again); and at exhaustion all
mode-relevant remaining counts are exactly zero. -/
theorem c4_pool_invariants (single : Bool) (B N W : Nat) (evs : List Ev) :
    (∀ c ∈ pool_counts single (run_events single (init_sys B N W) evs).pool, 0 ≤ c) ∧
    (∀ evs2 : List Ev,
      poolZ single (run_events single (run_events single (init_sys B N W) evs) evs2).pool ≤
        poolZ single (run_events single (init_sys B N W) evs).pool) ∧
    (exhausted single (run_events single (init_sys B N W) evs).pool →
      ∀ evs2 : List Ev,
        (run_events single (run_events single (init_sys B N W) evs) evs2).pool =
          (run_events single (init_sys B N W) evs).pool) ∧
    (exhausted single (run_events single (init_sys B N W) evs).pool →
      ∀ c ∈ pool_counts single (run_events single (init_sys B N W) evs).pool, c = 0) := by
  have hn := run_events_nonneg single evs (init_sys B N W) (init_nonneg B N W)
  exact ⟨nonneg_pool_counts single _ hn,
    fun evs2 => run_events_poolZ_le single evs2 _,
    fun hx evs2 => run_events_exhausted_frame single evs2 _ hx,
    fun hx => exhausted_counts_zero single _ hx hn⟩

/-- Witness for C4 at a concrete exhausted run: single-adapter mode, budget 1,
one worker, a schedule that drains the pool; the exhaustion hypotheses hold
and the pool then never changes. -/
theorem c4_witness :
    (∀ c ∈ pool_counts true
        (run_events true (init_sys 1 1 1) (List.replicate 5 ⟨0, 0, some (1, true)⟩)).pool,
      0 ≤ c) ∧
    (run_events true
        (run_events true (init_sys 1 1 1) (List.replicate 5 ⟨0, 0, some (1, true)⟩))
        [⟨0, 0, some (1, true)⟩]).pool =
      (run_events true (init_sys 1 1 1) (List.replicate 5 ⟨0, 0, some (1, true)⟩)).pool ∧
    (∀ c ∈ pool_counts true
        (run_events true (init_sys 1 1 1) (List.replicate 5 ⟨0, 0, some (1, true)⟩)).pool,
      c = 0) := by
  have hx : exhausted true
      (run_events true (init_sys 1 1 1) (List.replicate 5 ⟨0, 0, some (1, true)⟩)).pool :=
    fun c => (claim_next_single_none_iff c _).mpr (by decide)
  have h := c4_pool_invariants true 1 1 1 (List.replicate 5 ⟨0, 0, some (1, true)⟩)
  exact ⟨h.1, h.2.2.1 hx [⟨0, 0, some (1, true)⟩], h.2.2.2 hx⟩

/-- C8: for every state with at least one recorded request (and a nonzero
wall-clock span), the aggregation step of `benchmark_scenario` reports the
total completed count as the sum of all per-worker latency-list lengths, the
mean latency as the sum of all recorded latencies divided by that count, and
the throughput as that count divided by the wall-clock time. -/
theorem c8_result_formulas (s : Sys) (elapsed : ℚ)
    (h1 : total_requests_made s ≠ 0) (h2 : elapsed ≠ 0) :
    total_requests_made s = ((all_latencies s).map List.length).sum ∧
    total_latency s = ((all_latencies s).map (fun l => l.sum)).sum ∧
    aggregate s elapsed = Except.ok
      { average_latency := total_latency s / (total_requests_made s : ℚ),
        throughput := (total_requests_made s : ℚ) / elapsed } :=
  ⟨rfl, rfl, aggregate_ok s elapsed h1 h2⟩

/-- Witness for C8 at a concrete finished state: one worker finished with
latencies 3 and 5, wall-clock span 2. -/
theorem c8_witness :
    total_requests_made
        { pool := { total_requests := 0, adapter_counters := [] }, lock := none,
          workers := [{ phase := Phase.done, lats := [3, 5] }] } ≠ 0 ∧
    aggregate
        { pool := { total_requests := 0, adapter_counters := [] }, lock := none,
          workers := [{ phase := Phase.done, lats := [3, 5] }] } 2 =
      Except.ok
        { average_latency := total_latency
            { pool := { total_requests := 0, adapter_counters := [] }, lock := none,
              workers := [{ phase := Phase.done, lats := [3, 5] }] } /
            (total_requests_made
              { pool := { total_requests := 0, adapter_counters := [] }, lock := none,
                workers := [{ phase := Phase.done, lats := [3, 5] }] } : ℚ),
          throughput := (total_requests_made
              { pool := { total_requests := 0, adapter_counters := [] }, lock := none,
                workers := [{ phase := Phase.done, lats := [3, 5] }] } : ℚ) / 2 } := by
  refine ⟨by decide, ?_⟩
  exact (c8_result_formulas _ 2 (by decide) (by norm_num)).2.2

/-- C9: in every reachable state of a benchmark run the mutex is held only by
a worker inside the claim-and-decrement block, and never by a worker whose
blocking network request is in flight. -/
theorem c9_lock_discipline (single : Bool) (B N W : Nat) (evs : List Ev) :
    (∀ w, (run_events single (init_sys B N W) evs).lock = some w →
      ∃ ws, (run_events single (init_sys B N W) evs).workers[w]? = some ws ∧
        ws.phase = Phase.claiming) ∧
    (∀ w ws a, (run_events single (init_sys B N W) evs).workers[w]? = some ws →
      ws.phase = Phase.requesting a →
      (run_events single (init_sys B N W) evs).lock ≠ some w) := by
  have hI := run_events_lock single evs (init_sys B N W) (init_lock B N W)
  refine ⟨hI.1, ?_⟩
  intro w ws a hg hp hlock
  obtain ⟨ws₂, hg₂, hph₂⟩ := hI.1 w hlock
  rw [hg] at hg₂
  injection hg₂ with hg₂
  rw [← hg₂] at hph₂
  rw [hp] at hph₂
  cases hph₂

/-- Witness for C9 at a concrete reachable state in which the lock is held:
after one acquisition event the holder is inside the claim block. -/
theorem c9_witness :
    (run_events true (init_sys 1 1 1) [⟨0, 0, some (1, true)⟩]).lock = some 0 ∧
    ∃ ws, (run_events true (init_sys 1 1 1) [⟨0, 0, some (1, true)⟩]).workers[0]? = some ws ∧
      ws.phase = Phase.claiming := by
  refine ⟨by decide, ?_⟩
  exact (c9_lock_discipline true 1 1 1 [⟨0, 0, some (1, true)⟩]).1 0 (by decide)

/-- C10: a whole single-adapter run leaves every entry of `adapter_counters`
at its initial value, and a whole multi-adapter run leaves the global
`total_requests` counter at its initial value. -/
theorem c10_mode_isolation (B N W : Nat) (evs : List Ev) :
    (run_events true (init_sys B N W) evs).pool.adapter_counters =
      List.replicate N ((B / N : Nat) : Int) ∧
    (run_events false (init_sys B N W) evs).pool.total_requests = (B : Int) := by
  constructor
  · rw [run_events_single_counters]; rfl
  · rw [run_events_multi_total]; rfl

/-- C1 (amended): in multi-adapter mode each adapter is successfully claimed
at most `B / N` times in every execution; and in every execution in which
every worker finishes its loop normally (no `predict` call raised), the total
number of successful claims is exactly `N * (B / N)` — the residual
`B mod N` is never claimed.  The unconditional total of the original claim
fails when a raised request kills the workers before the pool drains. -/
theorem c1_multi_target_quota (B N W : Nat) (evs : List Ev) (i : Nat) :
    claims_of_target false i (init_sys B N W) evs ≤ B / N ∧
    (0 < W → all_done (run_events false (init_sys B N W) evs) →
      (claims_made false (init_sys B N W) evs : Int) = (N : Int) * ((B / N : Nat) : Int)) := by
  constructor
  · have h := claims_of_target_counter i evs (init_sys B N W)
    have hn := run_events_nonneg false evs (init_sys B N W) (init_nonneg B N W)
    have hfin := nonneg_getD _ hn i
    have hinit : (init_sys B N W).pool.adapter_counters.getD i 0 ≤ ((B / N : Nat) : Int) := by
      simp only [init_sys, List.getD_eq_getElem?_getD, List.getElem?_replicate]
      split
      · simp
      · simp only [Option.getD_none]
        positivity
    omega
  · intro hW hd
    have h := (terminal_drained false B N W evs hW hd).2.2
    rw [init_poolZ_multi] at h
    exact h

/-- Counterexample to C1 as stated: budget 4, 2 adapters, 1 worker; the
worker claims one unit and its `predict` call raises, so the run reaches the
join barrier with only 1 successful claim, not `2 * (4 / 2) = 4`. -/
theorem c1_counterexample :
    all_stopped (run_events false (init_sys 4 2 1)
      [⟨0, 0, some (1, true)⟩, ⟨0, 0, some (1, true)⟩, ⟨0, 0, none⟩]) ∧
    claims_made false (init_sys 4 2 1)
      [⟨0, 0, some (1, true)⟩, ⟨0, 0, some (1, true)⟩, ⟨0, 0, none⟩] = 1 ∧
    (1 : Nat) ≠ 2 * (4 / 2) := by
  exact ⟨by decide, by decide, by decide⟩

/-- Witness for C1 at a concrete full drain: budget 4, 2 adapters, 1 worker,
14 events draining the pool; adapter 0 is claimed at most `4 / 2 = 2` times
and the total is `2 * (4 / 2) = 4`. -/
theorem c1_witness :
    claims_of_target false 0 (init_sys 4 2 1)
      (List.replicate 14 ⟨0, 0, some (1, true)⟩) ≤ 4 / 2 ∧
    (claims_made false (init_sys 4 2 1)
      (List.replicate 14 ⟨0, 0, some (1, true)⟩) : Int) = (2 : Int) * ((4 / 2 : Nat) : Int) := by
  have h := c1_multi_target_quota 4 2 1 (List.replicate 14 ⟨0, 0, some (1, true)⟩) 0
  exact ⟨h.1, h.2 (by decide) (by decide)⟩

/-- C2 (amended): single-adapter mode always terminates — every schedule
contains at most `4 * B + 2 * W` non-stuttering steps, and whenever some
worker has not yet terminated some event still makes progress — and in every
execution in which all workers finish normally (no raised request) the total
number of recorded latency measurements is exactly `B`.  The unconditional
count of the original claim fails when a raised request kills a worker. -/
theorem c2_single_target_termination (B N W : Nat) (evs : List Ev) :
    prod_count true (init_sys B N W) evs ≤ 4 * B + 2 * W ∧
    (¬ all_stopped (run_events true (init_sys B N W) evs) →
      ∃ e, wstep true (run_events true (init_sys B N W) evs) e ≠
        run_events true (init_sys B N W) evs) ∧
    (0 < W → all_done (run_events true (init_sys B N W) evs) →
      total_requests_made (run_events true (init_sys B N W) evs) = B) := by
  refine ⟨?_, ?_, ?_⟩
  · have h := prod_count_le_V true evs (init_sys B N W) (init_nonneg B N W)
    have hV : measure_V true (init_sys B N W) = 4 * (B : Int) + 2 * (W : Int) := by
      unfold measure_V wsum
      rw [init_poolZ_single]
      simp only [init_sys, List.map_replicate, List.sum_replicate, nsmul_eq_mul,
        weightI, phase_weight]
      push_cast
      ring
    rw [hV] at h
    omega
  · exact fun hns => progress true _ (run_events_lock true evs _ (init_lock B N W)) hns
  · intro hW hd
    have h := (terminal_drained true B N W evs hW hd).2.1
    rw [init_poolZ_single] at h
    omega

/-- Counterexample to C2 as stated: budget 1, 1 worker; the worker claims the
only unit, its `predict` call raises, the thread dies and the join passes
with 0 recorded measurements instead of 1. -/
theorem c2_counterexample :
    all_stopped (run_events true (init_sys 1 1 1)
      [⟨0, 0, some (1, true)⟩, ⟨0, 0, some (1, true)⟩, ⟨0, 0, none⟩]) ∧
    total_requests_made (run_events true (init_sys 1 1 1)
      [⟨0, 0, some (1, true)⟩, ⟨0, 0, some (1, true)⟩, ⟨0, 0, none⟩]) = 0 ∧
    (0 : Nat) ≠ 1 := by
  exact ⟨by decide, by decide, by decide⟩

/-- Witness for C2 at a concrete completed run: budget 1, one worker, a
5-event schedule that drains the pool and finishes the worker; exactly one
measurement is recorded. -/
theorem c2_witness :
    prod_count true (init_sys 1 1 1) (List.replicate 5 ⟨0, 0, some (1, true)⟩) ≤
      4 * 1 + 2 * 1 ∧
    total_requests_made (run_events true (init_sys 1 1 1)
      (List.replicate 5 ⟨0, 0, some (1, true)⟩)) = 1 := by
  have h := c2_single_target_termination 1 1 1 (List.replicate 5 ⟨0, 0, some (1, true)⟩)
  exact ⟨h.1, h.2.2 (by decide) (by decide)⟩

/-- C3 (amended): for every configuration and every execution, the sum of the
per-worker latency-list lengths after the run is at most the number of
successful `claim_next` calls, which in turn never exceeds the configured
total request budget; the two are equal whenever every worker finishes its
loop normally.  The unconditional equality of the original claim fails when a
raised request discards a crashed worker's local measurements. -/
theorem c3_accounting (single : Bool) (B N W : Nat) (evs : List Ev) :
    total_requests_made (run_events single (init_sys B N W) evs) ≤
      claims_made single (init_sys B N W) evs ∧
    claims_made single (init_sys B N W) evs ≤ B ∧
    (0 < W → all_done (run_events single (init_sys B N W) evs) →
      total_requests_made (run_events single (init_sys B N W) evs) =
        claims_made single (init_sys B N W) evs) := by
  have hclaims := claims_made_poolZ single evs (init_sys B N W)
  have hcount : InvCount single (poolZ single (init_sys B N W).pool)
      (run_events single (init_sys B N W) evs) :=
    run_events_count single _ evs (init_sys B N W) (init_count single B N W)
  have htrm := total_requests_made_int (run_events single (init_sys B N W) evs)
  have hle : wsum recI (run_events single (init_sys B N W) evs) ≤
      wsum latI (run_events single (init_sys B N W) evs) :=
    wsum_le_wsum _ _ _ (fun ws _ => recI_le_latI ws)
  have hreq := wsum_reqI_nonneg (run_events single (init_sys B N W) evs)
  have hcrash := wsum_crashI_nonneg (run_events single (init_sys B N W) evs)
  have hnn := run_events_nonneg single evs (init_sys B N W) (init_nonneg B N W)
  have hz := poolZ_nonneg single _ hnn
  have hbase : poolZ single (init_sys B N W).pool ≤ (B : Int) := by
    cases single
    · rw [init_poolZ_multi]
      have h2 : N * (B / N) ≤ B := by
        calc N * (B / N) = B / N * N := Nat.mul_comm _ _
        _ ≤ B := Nat.div_mul_le_self B N
      calc (N : Int) * ((B / N : Nat) : Int) = ((N * (B / N) : Nat) : Int) := by
            push_cast
            ring
        _ ≤ (B : Int) := by exact_mod_cast h2
    · rw [init_poolZ_single]
  unfold InvCount at hcount
  refine ⟨?_, ?_, ?_⟩
  · omega
  · omega
  · intro hW hd
    have h1 := (terminal_drained single B N W evs hW hd).2.1
    have h2 := (terminal_drained single B N W evs hW hd).2.2
    omega

/-- Counterexample to C3 as stated: budget 2, 1 worker, single-adapter mode;
the worker records one latency, then its second request raises, the crashed
thread never publishes its list, and the run ends with 2 successful claims
but 0 recorded measurements. -/
theorem c3_counterexample :
    all_stopped (run_events true (init_sys 2 1 1)
      [⟨0, 0, some (3, true)⟩, ⟨0, 0, some (3, true)⟩, ⟨0, 0, some (3, true)⟩,
       ⟨0, 0, some (3, true)⟩, ⟨0, 0, some (3, true)⟩, ⟨0, 0, none⟩]) ∧
    claims_made true (init_sys 2 1 1)
      [⟨0, 0, some (3, true)⟩, ⟨0, 0, some (3, true)⟩, ⟨0, 0, some (3, true)⟩,
       ⟨0, 0, some (3, true)⟩, ⟨0, 0, some (3, true)⟩, ⟨0, 0, none⟩] = 2 ∧
    total_requests_made (run_events true (init_sys 2 1 1)
      [⟨0, 0, some (3, true)⟩, ⟨0, 0, some (3, true)⟩, ⟨0, 0, some (3, true)⟩,
       ⟨0, 0, some (3, true)⟩, ⟨0, 0, some (3, true)⟩, ⟨0, 0, none⟩]) = 0 ∧
    (0 : Nat) ≠ 2 := by
  exact ⟨by decide, by decide, by decide, by decide⟩

/-- Witness for C3 at a concrete crash-free run: budget 2, one worker, an
8-event schedule draining the pool; recorded measurements equal successful
claims. -/
theorem c3_witness :
    0 < 1 ∧
    total_requests_made (run_events true (init_sys 2 1 1)
      (List.replicate 8 ⟨0, 0, some (2, true)⟩)) =
      claims_made true (init_sys 2 1 1) (List.replicate 8 ⟨0, 0, some (2, true)⟩) := by
  have h := c3_accounting true 2 1 1 (List.replicate 8 ⟨0, 0, some (2, true)⟩)
  exact ⟨by decide, h.2.2 (by decide) (by decide)⟩

/-- C5 (amended): `benchmark_scenario` performs no configuration validation.
With zero workers it starts no threads (the worker phase is a no-op on the
unchanged initial state), it does not hang, no unit of work is ever claimed,
and the call then fails with the generic `ZeroDivisionError` raised while
computing `average_latency` over zero recorded requests — it is not rejected
up front as a bad configuration. -/
theorem c5_zero_workers (single : Bool) (B N : Nat) (evs : List Ev) (elapsed : ℚ) :
    run_events single (init_sys B N 0) evs = init_sys B N 0 ∧
    claims_made single (init_sys B N 0) evs = 0 ∧
    benchmark_scenario single B N 0 evs elapsed = Except.error "ZeroDivisionError" := by
  have hw : (init_sys B N 0).workers = [] := rfl
  refine ⟨run_events_no_workers single evs _ hw, claims_made_no_workers single evs _ hw, ?_⟩
  unfold benchmark_scenario
  rw [run_events_no_workers single evs _ hw]
  apply aggregate_error_of_zero
  apply total_requests_made_zero
  intro ws hmem
  rw [hw] at hmem
  cases hmem

/-- Counterexample to C5 as stated: with the notebook's configuration and
zero workers the run is not rejected before the worker phase — it executes
to the aggregation step and dies there with the same `ZeroDivisionError`
that any zero-measurement run produces, as the zero-budget twenty-worker run
(whose threads do start) shows. -/
theorem c5_counterexample :
    benchmark_scenario true 300 50 0 [⟨0, 0, some (1, true)⟩] 1 =
      Except.error "ZeroDivisionError" ∧
    benchmark_scenario true 0 50 20 [⟨0, 0, some (1, true)⟩, ⟨0, 0, some (1, true)⟩] 1 =
      Except.error "ZeroDivisionError" := by
  exact ⟨rfl, rfl⟩

/-- C6 (amended): with a zero request budget every worker immediately
observes exhaustion — no claim ever succeeds, no worker ever issues a
request, records a latency, or crashes — but the run does not produce a
vacuous result: the aggregation step divides by the zero count of recorded
requests and the call errors with `ZeroDivisionError`. -/
theorem c6_zero_budget (single : Bool) (N W : Nat) (evs : List Ev) (elapsed : ℚ) :
    claims_made single (init_sys 0 N W) evs = 0 ∧
    (∀ ws ∈ (run_events single (init_sys 0 N W) evs).workers,
      ws.lats = [] ∧
        (ws.phase = Phase.ready ∨ ws.phase = Phase.claiming ∨ ws.phase = Phase.done)) ∧
    benchmark_scenario single 0 N W evs elapsed = Except.error "ZeroDivisionError" := by
  obtain ⟨hpool, hgood⟩ := zero_budget_workers single N W evs
  have hz0 : poolZ single (init_sys 0 N W).pool = 0 := by
    cases single
    · rw [init_poolZ_multi]
      simp
    · rw [init_poolZ_single]
      rfl
  refine ⟨?_, hgood, ?_⟩
  · have h := claims_made_poolZ single evs (init_sys 0 N W)
    rw [hpool, hz0] at h
    omega
  · unfold benchmark_scenario
    apply aggregate_error_of_zero
    apply total_requests_made_zero
    intro ws hmem
    obtain ⟨hlats, _⟩ := hgood ws hmem
    unfold recorded
    split
    · exact hlats
    · rfl

/-- Counterexample to C6 as stated: budget 0, one worker; the worker observes
exhaustion and exits cleanly, but the run does not complete normally — it
errors with `ZeroDivisionError` instead of producing a vacuous result. -/
theorem c6_counterexample :
    benchmark_scenario true 0 1 1 [⟨0, 0, some (1, true)⟩, ⟨0, 0, some (1, true)⟩] 1 =
      Except.error "ZeroDivisionError" := by
  rfl

/-- C7 (amended): the worker's accounting never inspects the content of a
returned response — two responses with the same elapsed time but different
success flags produce identical states, so a returned failure is timed,
recorded and counted exactly like a success — but a `predict` call that
raises is not: the worker moves to `crashed`, that request's elapsed time is
never appended, and the crashed worker's entire local latency list is
excluded from the published record. -/
theorem c7_failure_accounting (single : Bool) (s : Sys) (w c : Nat) (l : ℚ)
    (f1 f2 : Bool) (e : Ev) (ws : WState) (a : Nat)
    (hg : s.workers[e.w]? = some ws) (hp : ws.phase = Phase.requesting a)
    (ho : e.outcome = none) :
    wstep single s ⟨w, c, some (l, f1)⟩ = wstep single s ⟨w, c, some (l, f2)⟩ ∧
    (wstep single s e).workers[e.w]? = some ({ ws with phase := Phase.crashed }) ∧
    recorded ({ ws with phase := Phase.crashed }) = [] := by
  obtain ⟨h1, h2⟩ := wstep_crash_drops single s e ws a hg hp ho
  exact ⟨wstep_outcome_flag single s w c l f1 f2, h1, h2⟩

/-- Counterexample to C7 as stated: budget 1, one worker.  A returned
non-success response (flag `false`) is timed and recorded — 1 measurement,
1 claim — but a raised call on the same claim leaves 0 measurements for the
1 claim, so a raising failure is not accounted like a success. -/
theorem c7_counterexample :
    total_requests_made (run_events true (init_sys 1 1 1)
      (List.replicate 5 ⟨0, 0, some (7, false)⟩)) = 1 ∧
    claims_made true (init_sys 1 1 1) (List.replicate 5 ⟨0, 0, some (7, false)⟩) = 1 ∧
    total_requests_made (run_events true (init_sys 1 1 1)
      [⟨0, 0, none⟩, ⟨0, 0, none⟩, ⟨0, 0, none⟩]) = 0 ∧
    claims_made true (init_sys 1 1 1) [⟨0, 0, none⟩, ⟨0, 0, none⟩, ⟨0, 0, none⟩] = 1 ∧
    (0 : Nat) ≠ 1 := by
  exact ⟨by decide, by decide, by decide, by decide, by decide⟩

/-- Witness for C7 at a concrete in-flight state: a worker with one recorded
latency whose request raises ends `crashed` with an empty published record,
while the two return outcomes with opposite flags step identically. -/
theorem c7_witness :
    wstep true { pool := { total_requests := 0, adapter_counters := [] }, lock := none,
                 workers := [{ phase := Phase.requesting 1, lats := [3] }] }
        ⟨0, 0, some (5, true)⟩ =
      wstep true { pool := { total_requests := 0, adapter_counters := [] }, lock := none,
                   workers := [{ phase := Phase.requesting 1, lats := [3] }] }
        ⟨0, 0, some (5, false)⟩ ∧
    (wstep true { pool := { total_requests := 0, adapter_counters := [] }, lock := none,
                  workers := [{ phase := Phase.requesting 1, lats := [3] }] }
      ⟨0, 0, none⟩).workers[0]? = some { phase := Phase.crashed, lats := [3] } ∧
    recorded { phase := Phase.crashed, lats := [3] } = [] := by
  have h := c7_failure_accounting true
    { pool := { total_requests := 0, adapter_counters := [] }, lock := none,
      workers := [{ phase := Phase.requesting 1, lats := [3] }] }
    0 0 5 true false ⟨0, 0, none⟩ { phase := Phase.requesting 1, lats := [3] } 1
    (by decide) (by decide) (by decide)
  exact ⟨h.1, h.2.1, h.2.2⟩
